import Mathlib

/-!
# Verification of the Hunta search aggregation & ranking engine

A shallow embedding of the core search pipeline of the Hunta backend:
query expansion fallback and merge (`src/services/openaiService.js`), the
fan-out orchestrator, deduplicator, scorer/ranker and currency converter
(the `SearchService` in `src/services/scrapingService.js`), and the legacy
`SearchService` variant (`src/unnamed/part_002`).

JavaScript strings are modelled by Lean `String`, with the string
operations used by the code (`toLowerCase`, `trim`, `includes`,
whitespace splitting) re-implemented structurally on `String.data` so that
they evaluate inside the kernel.  JavaScript numbers are modelled by `ℚ`
(the code only ever manipulates decimal literals with at most two decimal
places, well inside the range where binary doubles behave like exact
decimals for the comparisons performed).  `Math.round` is half-up
rounding, i.e. `⌊x + 1/2⌋`.  `Date.parse(postedAt)` is abstracted to its
numeric result: a listing carries `postedAt : Option ℚ` (epoch
milliseconds, `none` for a missing or unparsable timestamp).  The ambient
clock `Date.now()` is passed explicitly as a `now : ℚ` argument.
-/

/-! ## JS string and number primitives -/

/-- Substring test on character lists; `listContains h n` is
`String(h).includes(n)` on the underlying character data. -/
def listContains (hay needle : List Char) : Bool :=
  needle.isPrefixOf hay ||
    match hay with
    | [] => false
    | _ :: t => listContains t needle

/-- JavaScript `hay.includes(sub)`. -/
def jsIncludes (hay sub : String) : Bool :=
  listContains hay.data sub.data

/-- JavaScript `s.toLowerCase()` (ASCII case mapping). -/
def lowerStr (s : String) : String :=
  ⟨s.data.map Char.toLower⟩

/-- JavaScript `s.trim()`: strip whitespace from both ends. -/
def trimStr (s : String) : String :=
  ⟨((s.data.dropWhile (·.isWhitespace)).reverse.dropWhile (·.isWhitespace)).reverse⟩

/-- Split a character list at every character satisfying `p` (like
`String.split` on a single-character separator: empty segments between
consecutive separators are kept). -/
def splitChGo (p : Char → Bool) : List Char → List Char → List (List Char)
  | [], acc => [acc.reverse]
  | c :: rest, acc =>
    if p c then acc.reverse :: splitChGo p rest [] else splitChGo p rest (c :: acc)

def splitCh (p : Char → Bool) (l : List Char) : List (List Char) :=
  splitChGo p l []

/-- JavaScript `s.split(' ')`. -/
def splitOnSpace (s : String) : List String :=
  (splitCh (· == ' ') s.data).map (fun cs => ⟨cs⟩)

/-- Join words with single spaces. -/
def joinWords : List (List Char) → List Char
  | [] => []
  | [w] => w
  | w :: ws => w ++ ' ' :: joinWords ws

/-- `normalizeText` from `src/services/scrapingService.js`:
`(s || '').toLowerCase().replace(/\s+/g, ' ').trim()` — lower-case,
collapse whitespace runs to single spaces, trim. -/
def normalizeText (s : String) : String :=
  ⟨joinWords (((splitCh (·.isWhitespace) (s.data.map Char.toLower))).filter (· ≠ []))⟩

/-- Legacy `originalQuery.toLowerCase().split(/\s+/)` from
`src/unnamed/part_002`: split at maximal whitespace runs, keeping an empty
boundary token when the string starts or ends with whitespace
(JavaScript `split(/\s+/)` semantics). -/
def jsSplitWs (s : String) : List String :=
  match s.data with
  | [] => [""]
  | c :: rest =>
    let cs := c :: rest
    let tokens := ((splitCh (·.isWhitespace) cs).filter (· ≠ [])).map (fun w => (⟨w⟩ : String))
    (if c.isWhitespace then [""] else []) ++ tokens ++
      (if ((c :: rest).getLast (by simp)).isWhitespace then [""] else [])

/-- Numeric value of a digit list (most significant first). -/
def digitsToNat (ds : List Char) : Nat :=
  ds.foldl (fun a c => 10 * a + (c.toNat - 48)) 0

/-- Try to match the regex `-?\d+(?:\.\d{1,2})?` anchored at the head of
the character list, returning the matched numeric value. -/
def matchNumberAt (cs : List Char) : Option ℚ :=
  let nr : Bool × List Char :=
    match cs with
    | '-' :: r => (true, r)
    | r => (false, r)
  let neg := nr.1
  let rest := nr.2
  let ds := rest.takeWhile (·.isDigit)
  if ds.isEmpty then none
  else
    let rest2 := rest.dropWhile (·.isDigit)
    let intPart : ℚ := (digitsToNat ds : ℚ)
    let val :=
      match rest2 with
      | '.' :: r2 =>
        let fds := (r2.takeWhile (·.isDigit)).take 2
        if fds.isEmpty then intPart
        else intPart + (digitsToNat fds : ℚ) / ((10 : ℚ) ^ fds.length)
      | _ => intPart
    some (if neg then -val else val)

/-- Leftmost match of `-?\d+(?:\.\d{1,2})?` in a character list. -/
def findNumber : List Char → Option ℚ
  | [] => none
  | c :: rest =>
    match matchNumberAt (c :: rest) with
    | some v => some v
    | none => findNumber rest

/-- `parsePriceNumber` from `src/services/scrapingService.js`: `null` for
an empty string, otherwise the first `-?\d+(?:\.\d{1,2})?` match of the
comma-stripped string (`String(str).replace(/,/g, '')`). -/
def parsePriceNumber (s : String) : Option ℚ :=
  if s = "" then none
  else findNumber (s.data.filter (· ≠ ','))

/-- JavaScript `parseFloat` (used by the legacy converter): optional
leading whitespace and sign, decimal mantissa, optional well-formed
exponent; `none` models `NaN`. -/
def parseFloatQ (s : String) : Option ℚ :=
  let cs0 := s.data.dropWhile (·.isWhitespace)
  let sc : ℚ × List Char :=
    match cs0 with
    | '-' :: r => ((-1 : ℚ), r)
    | '+' :: r => ((1 : ℚ), r)
    | r => ((1 : ℚ), r)
  let sgn := sc.1
  let cs := sc.2
  let intDs := cs.takeWhile (·.isDigit)
  let cs2 := cs.dropWhile (·.isDigit)
  let fc : List Char × List Char :=
    match cs2 with
    | '.' :: r => (r.takeWhile (·.isDigit), r.dropWhile (·.isDigit))
    | _ => (([] : List Char), cs2)
  let fracDs := fc.1
  let cs3 := fc.2
  if intDs.isEmpty && fracDs.isEmpty then none
  else
    let mant : ℚ := (digitsToNat intDs : ℚ) + (digitsToNat fracDs : ℚ) / ((10 : ℚ) ^ fracDs.length)
    let expVal : ℤ :=
      match cs3 with
      | 'e' :: r | 'E' :: r =>
        let (es, r2) :=
          match r with
          | '-' :: rr => ((-1 : ℤ), rr)
          | '+' :: rr => ((1 : ℤ), rr)
          | rr => ((1 : ℤ), rr)
        let eds := r2.takeWhile (·.isDigit)
        if eds.isEmpty then 0 else es * (digitsToNat eds : ℤ)
      | _ => 0
    some (sgn * mant * (10 : ℚ) ^ expVal)

/-- JavaScript `Math.round`: half-up rounding (also for negatives:
`Math.round (-0.5) = 0`). -/
def jsRound (q : ℚ) : ℤ :=
  ⌊q + 1 / 2⌋

/-- `Math.round(score * 100) / 100`: round to two decimal places. -/
def round2 (q : ℚ) : ℚ :=
  (jsRound (q * 100) : ℚ) / 100

/-- `extractDomain` from `src/services/scrapingService.js`:
`new URL(url).hostname.replace(/^www\./, '')`, returning `""` when the URL
has no authority.  The WHATWG hostname is modelled as the lower-cased part
after the first `"://"`, cut at the first `/`, `?` or `#`, with userinfo
(before `@`) and port (after `:`) removed. -/
def afterFirstSep (sep : List Char) : List Char → Option (List Char)
  | [] => if sep.isEmpty then some [] else none
  | c :: rest =>
    if sep.isPrefixOf (c :: rest) then some ((c :: rest).drop sep.length)
    else afterFirstSep sep rest

def extractDomain (url : String) : String :=
  match afterFirstSep "://".data url.data with
  | none => ""
  | some rest =>
    let authority := rest.takeWhile (fun c => !(c == '/' || c == '?' || c == '#'))
    let hostport := ((splitCh (· == '@') authority).getLastD [])
    let host := (hostport.takeWhile (fun c => !(c == ':'))).map Char.toLower
    ⟨if "www.".data.isPrefixOf host then host.drop 4 else host⟩

/-- Insertion-ordered deduplication, as `[...new Set(xs)]`. -/
def dedupFirstGo (seen : List String) : List String → List String
  | [] => []
  | s :: rest =>
    if s ∈ seen then dedupFirstGo seen rest
    else s :: dedupFirstGo (s :: seen) rest

def dedupFirst (l : List String) : List String :=
  dedupFirstGo [] l

/-! ## Data model -/

/-- The four boolean flags of an `EnhancedQuery`. -/
structure Flags where
  high_value_item : Bool
  common_scam_target : Bool
  likely_on_forums : Bool
  reseller_friendly : Bool
deriving DecidableEq, Repr

/-- `EnhancedQuery`: output contract of the enhancement collaborator and
of the fallback expander. -/
structure EnhancedQuery where
  original : String
  search_terms : List String
  categories : List String
  forums : List String
  flags : Flags
deriving DecidableEq, Repr

/-- A raw listing as returned by a source capability.  `postedAt` is the
`Date.parse` result of the ISO timestamp (`none`: missing/unparsable). -/
structure RawListing where
  title : String
  price : String
  link : String
  image : String
  source : String
  description : String
  postedAt : Option ℚ
deriving DecidableEq, Repr, Inhabited

/-- A listing after deduplication, which stores the parsed numeric price
(`unique.push({ ...r, priceAmount })`). -/
structure NListing extends RawListing where
  priceAmount : Option ℚ
deriving DecidableEq, Repr, Inhabited

/-- A scored listing (`{ ...result, score }`). -/
structure ScoredListing extends NListing where
  score : ℚ
deriving DecidableEq, Repr, Inhabited

/-- A legacy scored listing (the legacy scorer does not add
`priceAmount`). -/
structure LegacyScored extends RawListing where
  score : ℚ
deriving DecidableEq, Repr, Inhabited

/-- Outcome of one source-capability invocation: the promise rejects
(`throws`), fulfills with an array of listings (`returns`), or fulfills
with a non-array value (`malformed`). -/
inductive SourceOutcome where
  | throws
  | returns (items : List RawListing)
  | malformed
deriving DecidableEq, Repr

/-- The orchestrator's wrapper
`.catch(err => []).then(items => Array.isArray(items) ? items : [])`:
any failure or malformed value becomes an empty contribution. -/
def sourceContribution : SourceOutcome → List RawListing
  | .returns items => items
  | _ => []

/-! ## The core `SearchService` (`src/services/scrapingService.js`) -/

namespace Core

/-- The static `SOURCE_WEIGHTS` trust table. -/
def SOURCE_WEIGHTS (s : String) : Option ℚ :=
  if s = "ebay" then some 1
  else if s = "gumtree" then some (9 / 10)
  else if s = "cashConverters" then some (4 / 5)
  else if s = "facebook" then some (7 / 10)
  else if s = "vinted" then some (7 / 10)
  else if s = "depop" then some (7 / 10)
  else if s = "discogs" then some (4 / 5)
  else if s = "googleShopping" then some (3 / 5)
  else if s = "googleResults" then some (3 / 5)
  else none

/-- `median(nums)`: sort ascending (the `(x, y) => x - y` comparator) and
take the element at index `⌊length / 2⌋`; `null` on the empty list. -/
def median (l : List ℚ) : Option ℚ :=
  let a := l.mergeSort (fun x y => decide (x ≤ y))
  if a.isEmpty then none else some (a.getD (a.length / 2) 0)

/-- JavaScript falsiness of a `number | null` value (`null`, `0`). -/
def falsyQ : Option ℚ → Bool
  | none => true
  | some q => q == 0

/-- `priceClosenessScore(amount, med)`: neutral `0.5` when either value is
falsy, otherwise `max(0, 1 - min(1, |amount - med| / (med + 1e-6)))`. -/
def priceClosenessScore (amount med : Option ℚ) : ℚ :=
  if falsyQ amount || falsyQ med then 1 / 2
  else
    let a := amount.getD 0
    let m := med.getD 0
    let diffPct := |a - m| / (m + 1 / 1000000)
    max 0 (1 - min 1 diffPct)

/-- `recencyScore(iso)` with the ambient `Date.now()` made explicit:
tiered by age in days; neutral `0.5` for a missing/unparsable
timestamp. -/
def recencyScore (now : ℚ) (ts : Option ℚ) : ℚ :=
  match ts with
  | none => 1 / 2
  | some t =>
    let days := (now - t) / 86400000
    if days ≤ 1 then 1
    else if days ≤ 7 then 4 / 5
    else if days ≤ 30 then 3 / 5
    else if days ≤ 90 then 2 / 5
    else 1 / 5

/-- The deduplication identity key.  The source renders it as the string
`` `${normalizeText(title)}::${parsePriceNumber(price) ?? 'na'}::${extractDomain(link)}` ``;
it is modelled as the triple of the three components ('na' = `none`). -/
def uniqKey (title price link : String) : String × Option ℚ × String :=
  (normalizeText title, parsePriceNumber price, extractDomain link)

/-- Key of a deduplicated listing (same formula; `priceAmount` of an
`NListing` is by construction `parsePriceNumber` of its price). -/
def keyOfN (x : NListing) : String × Option ℚ × String :=
  uniqKey x.title x.price x.link

/-- A candidate passes the essentials check `if (!title || !link) continue`. -/
def validListing (r : RawListing) : Bool :=
  !(r.title == "" || r.link == "")

/-- Step 4 of `performSearch`: drop candidates with a missing title or
link, keep the first listing for each identity key (`seen` set), and
attach the parsed numeric price. -/
def dedupeGo (seen : List (String × Option ℚ × String)) :
    List RawListing → List NListing
  | [] => []
  | r :: rest =>
    if validListing r then
      let key := uniqKey r.title r.price r.link
      if key ∈ seen then dedupeGo seen rest
      else ⟨r, parsePriceNumber r.price⟩ :: dedupeGo (key :: seen) rest
    else dedupeGo seen rest

def dedupeResults (l : List RawListing) : List NListing :=
  dedupeGo [] l

/-- Steps 5–6 of `performSearch`: compute the candidate-set price median,
then score every listing.  Mirrors the source loop for loop: term-match
accumulation, quality tweaks, price & recency components, source trust,
clamping and 2-decimal rounding. -/
def scoreResults (unique : List NListing) (searchTerm : String)
    (eq : EnhancedQuery) (now : ℚ) : List ScoredListing :=
  let priceNums := unique.filterMap (·.priceAmount)
  let med := median priceNums
  let queryTerms := (splitOnSpace (normalizeText searchTerm)).filter (· ≠ "")
  let enhancedTerms := (eq.search_terms.map normalizeText).filter (· ≠ "")
  let categories := (eq.categories.map normalizeText).filter (· ≠ "")
  unique.map (fun result =>
    let title := normalizeText result.title
    let description := normalizeText result.description
    let src := if result.source ≠ "" then result.source else extractDomain result.link
    let matchScore : ℚ :=
      queryTerms.foldl (fun acc t =>
        acc + (if jsIncludes title t then 3 / 10 else 0)
            + (if jsIncludes description t then 1 / 10 else 0)) 0
      + enhancedTerms.foldl (fun acc t =>
          acc + (if jsIncludes title t then 1 / 5 else 0)
              + (if jsIncludes description t then 1 / 20 else 0)) 0
      + categories.foldl (fun acc c =>
          acc + (if jsIncludes title c || jsIncludes description c then 3 / 20 else 0)) 0
      + (if jsIncludes title (normalizeText searchTerm) then 1 / 4 else 0)
      + (if result.title.length < 20 then -(1 / 20) else 0)
      + (if result.image ≠ "" then 3 / 100 else 0)
    let priceScore := priceClosenessScore result.priceAmount med * (3 / 20)
    let recScore := recencyScore now result.postedAt * (1 / 10)
    let srcWeight := ((SOURCE_WEIGHTS src).getD (3 / 5)) * (1 / 20)
    let score := (1 / 2) * min 1 (max 0 matchScore) + priceScore + recScore + srcWeight
    { result with score := round2 (max 0 (min 1 score)) })

/-- The working term list:
`[searchTerm, ...expansions].map(s => String(s || '').trim()).filter(Boolean).slice(0, 5)`. -/
def buildSearchTerms (searchTerm : String) (eq : EnhancedQuery) : List String :=
  ((([searchTerm] ++ eq.search_terms).map trimStr).filter (· ≠ "")).take 5

/-- Step 7 of `performSearch`: guard on a present title, stable sort by
descending score (`Array.prototype.sort` is stable), take the top 40. -/
def rankResults (scored : List ScoredListing) : List ScoredListing :=
  ((scored.filter (fun r => r.title ≠ "")).mergeSort
    (fun a b => decide (b.score ≤ a.score))).take 40

/-- The static pairwise currency rate table. -/
def rates (key : String) : Option ℚ :=
  if key = "GBP_TO_USD" then some (127 / 100)
  else if key = "GBP_TO_EUR" then some (117 / 100)
  else if key = "USD_TO_GBP" then some (79 / 100)
  else if key = "USD_TO_EUR" then some (23 / 25)
  else if key = "EUR_TO_GBP" then some (17 / 20)
  else if key = "EUR_TO_USD" then some (109 / 100)
  else none

def currencySymbol (target : String) : String :=
  if target = "USD" then "$" else if target = "EUR" then "€" else "£"

/-- The per-listing body of `convertCurrency`: detect the current currency
by symbol, parse the magnitude, convert-and-round when a rate exists.
When `parsePriceNumber` is `null`, the source's `!isNaN(numericPrice)`
guard still passes (`isNaN(null)` is `false`) and `null * rate` is `0`,
modelled by `numericPrice.getD 0`. -/
def convertItemPrice (price targetCurrency : String) : String :=
  if price = "" then price
  else
    let currentCurrency :=
      if jsIncludes price "$" then "USD"
      else if jsIncludes price "€" then "EUR" else "GBP"
    let numericPrice := parsePriceNumber price
    if currentCurrency ≠ targetCurrency then
      match rates (currentCurrency ++ "_TO_" ++ targetCurrency) with
      | some rate =>
        currencySymbol targetCurrency ++ toString (jsRound (numericPrice.getD 0 * rate))
      | none => price
    else price

/-- `convertCurrency(results, targetCurrency)`: no-op for the default
currency, otherwise rewrite each price string. -/
def convertCurrency (results : List ScoredListing) (targetCurrency : String) :
    List ScoredListing :=
  if targetCurrency = "GBP" then results
  else results.map (fun r => { r with price := convertItemPrice r.price targetCurrency })

/-- `performSearch` with the collaborator outputs made explicit: the
resolved `EnhancedQuery` (enhancement never rejects: both the collaborator
wrapper and the orchestrator fall back internally) and the active source
capabilities (term, location) ↦ outcome.  Per-source failures are caught
locally; the `Except` error channel corresponds to the outer `try/catch`
re-throw, which no modelled step triggers. -/
def performSearch (searchTerm location currency : String) (enhanced : EnhancedQuery)
    (sources : List (String → String → SourceOutcome)) (now : ℚ) :
    Except String (List ScoredListing) :=
  let allSearchTerms := buildSearchTerms searchTerm enhanced
  if sources.isEmpty then .ok []
  else
    let allResults := allSearchTerms.flatMap (fun term =>
      sources.flatMap (fun src => sourceContribution (src term location)))
    if allResults.isEmpty then .ok []
    else
      let unique := dedupeResults allResults
      let scored := scoreResults unique searchTerm enhanced now
      let finalResults := rankResults scored
      .ok (convertCurrency finalResults currency)

/-! ### Decomposition of the score into its four weighted components -/

/-- The term-match accumulator of one listing: token, enhanced-term and
category hits, the verbatim-phrase bonus, and the quality tweaks. -/
def termMatchAccum (searchTerm : String) (eq : EnhancedQuery) (x : NListing) : ℚ :=
  let queryTerms := (splitOnSpace (normalizeText searchTerm)).filter (· ≠ "")
  let enhancedTerms := (eq.search_terms.map normalizeText).filter (· ≠ "")
  let categories := (eq.categories.map normalizeText).filter (· ≠ "")
  let title := normalizeText x.title
  let description := normalizeText x.description
  queryTerms.foldl (fun acc t =>
    acc + (if jsIncludes title t then 3 / 10 else 0)
        + (if jsIncludes description t then 1 / 10 else 0)) 0
  + enhancedTerms.foldl (fun acc t =>
      acc + (if jsIncludes title t then 1 / 5 else 0)
          + (if jsIncludes description t then 1 / 20 else 0)) 0
  + categories.foldl (fun acc c =>
      acc + (if jsIncludes title c || jsIncludes description c then 3 / 20 else 0)) 0
  + (if jsIncludes title (normalizeText searchTerm) then 1 / 4 else 0)
  + (if x.title.length < 20 then -(1 / 20) else 0)
  + (if x.image ≠ "" then 3 / 100 else 0)

/-- Term-match component: the accumulator clamped to `[0, 1]` before
weighting. -/
def termMatchComponent (searchTerm : String) (eq : EnhancedQuery) (x : NListing) : ℚ :=
  min 1 (max 0 (termMatchAccum searchTerm eq x))

/-- Price-closeness component of a listing relative to the candidate set's
median of parsed numeric prices. -/
def priceComponent (l : List NListing) (x : NListing) : ℚ :=
  priceClosenessScore x.priceAmount (median (l.filterMap (·.priceAmount)))

/-- Recency component. -/
def recencyComponent (now : ℚ) (x : NListing) : ℚ :=
  recencyScore now x.postedAt

/-- Source-trust component: `SOURCE_WEIGHTS[source] ?? 0.6` where `source`
is the listing's source identifier, defaulted to its link's domain. -/
def sourceTrustComponent (x : NListing) : ℚ :=
  (SOURCE_WEIGHTS (if x.source ≠ "" then x.source else extractDomain x.link)).getD (3 / 5)

/-- The final score as the weighted sum of the four components, clamped to
`[0, 1]` and rounded to 2 decimal places. -/
def scoreValue (searchTerm : String) (eq : EnhancedQuery) (l : List NListing)
    (now : ℚ) (x : NListing) : ℚ :=
  round2 (max 0 (min 1
    ((1 / 2) * termMatchComponent searchTerm eq x
      + (3 / 20) * priceComponent l x
      + (1 / 10) * recencyComponent now x
      + (1 / 20) * sourceTrustComponent x)))

end Core

/-! ## The enhancement collaborator wrapper (`src/services/openaiService.js`) -/

namespace Openai

/-- The flags object of a parsed collaborator response; each field may be
absent. -/
structure ParsedFlags where
  high_value_item : Option Bool
  common_scam_target : Option Bool
  likely_on_forums : Option Bool
  reseller_friendly : Option Bool
deriving DecidableEq, Repr

/-- A successfully JSON-parsed collaborator response, before shape
normalization.  `none` in `search_terms`/`categories`/`forums` models a
missing or non-array field. -/
structure ParsedResponse where
  original : Option String
  search_terms : Option (List String)
  categories : Option (List String)
  forums : Option (List String)
  flags : Option ParsedFlags
deriving DecidableEq, Repr

/-- `getFallbackEnhancement(searchTerm)`: the deterministic offline
expander. -/
def getFallbackEnhancement (searchTerm : String) : EnhancedQuery :=
  let t := trimStr searchTerm
  let lower := lowerStr t
  let base :=
    [t, "used " ++ t, t ++ " second hand", t ++ " pre-owned", t ++ " secondhand"]
    ++ (if jsIncludes lower "iphone" || jsIncludes lower "apple" then
          [t ++ " unlocked", t ++ " refurbished"] else [])
    ++ (if jsIncludes lower "guitar" || jsIncludes lower "bass" || jsIncludes lower "amp"
          || jsIncludes lower "pedal" || jsIncludes lower "synth" then
          [t ++ " vintage", t ++ " electric"] else [])
    ++ (if jsIncludes lower "car" || jsIncludes lower "vehicle" then
          [t ++ " low mileage", t ++ " service history"] else [])
  let unique := ((dedupFirst base).filter (· ≠ "")).take 6
  { original := t
    search_terms := unique
    categories := ["general"]
    forums := ["reddit"]
    flags :=
      { high_value_item := jsIncludes lower "iphone" || jsIncludes lower "macbook"
          || jsIncludes lower "rolex" || jsIncludes lower "gpu" || jsIncludes lower "ps5"
        common_scam_target := jsIncludes lower "iphone" || jsIncludes lower "designer"
          || jsIncludes lower "luxury" || jsIncludes lower "gpu"
        likely_on_forums := jsIncludes lower "guitar" || jsIncludes lower "vintage"
          || jsIncludes lower "collectible" || jsIncludes lower "pokemon"
          || jsIncludes lower "tcg"
        reseller_friendly := true } }

/-- `!!parsed?.flags?.f`: coerce a possibly-missing flag to a boolean. -/
def coerceFlag (f : Option ParsedFlags) (get : ParsedFlags → Option Bool) : Bool :=
  (f.bind get).getD false

/-- The `out` normalization of `enhanceSearchQuery`'s success path:
`original || searchTerm`, arrays filtered of falsy entries,
`search_terms` capped at 8, flags coerced to booleans. -/
def normalizeParsed (searchTerm : String) (parsed : ParsedResponse) : EnhancedQuery :=
  { original :=
      match parsed.original with
      | some s => if s = "" then searchTerm else s
      | none => searchTerm
    search_terms :=
      match parsed.search_terms with
      | some l => (l.filter (· ≠ "")).take 8
      | none => []
    categories :=
      match parsed.categories with
      | some l => l.filter (· ≠ "")
      | none => []
    forums :=
      match parsed.forums with
      | some l => l.filter (· ≠ "")
      | none => []
    flags :=
      { high_value_item := coerceFlag parsed.flags (·.high_value_item)
        common_scam_target := coerceFlag parsed.flags (·.common_scam_target)
        likely_on_forums := coerceFlag parsed.flags (·.likely_on_forums)
        reseller_friendly := coerceFlag parsed.flags (·.reseller_friendly) } }

/-- The success path of `enhanceSearchQuery` after JSON parsing: normalize
the response; when it carries zero usable search terms, merge with the
fallback expansion — terms are unioned insertion-ordered and capped at 8,
empty categories/forums are backfilled from the fallback, and the flags
spread `{ ...fb.flags, ...out.flags }` resolves to the collaborator's
flags because all four keys are always present after coercion. -/
def enhanceSuccess (searchTerm : String) (parsed : ParsedResponse) : EnhancedQuery :=
  let out := normalizeParsed searchTerm parsed
  if out.search_terms.isEmpty then
    let fb := getFallbackEnhancement searchTerm
    { out with
      search_terms := (dedupFirst (fb.search_terms ++ out.search_terms)).take 8
      categories := if out.categories.isEmpty then fb.categories else out.categories
      forums := if out.forums.isEmpty then fb.forums else out.forums
      flags := out.flags }
  else out

end Openai

/-! ## The legacy `SearchService` (`src/unnamed/part_002`, second variant) -/

namespace Legacy

/-- Legacy deduplication: skip candidates missing `title`, `price` or
`link`; key = `` `${title.toLowerCase().trim()}-${price.toLowerCase().trim()}` ``;
first seen wins. -/
def dedupeGo (seen : List String) : List RawListing → List RawListing
  | [] => []
  | r :: rest =>
    if r.title = "" ∨ r.price = "" ∨ r.link = "" then dedupeGo seen rest
    else
      let key := trimStr (lowerStr r.title) ++ "-" ++ trimStr (lowerStr r.price)
      if key ∈ seen then dedupeGo seen rest
      else r :: dedupeGo (key :: seen) rest

def deduplicateResults (l : List RawListing) : List RawListing :=
  dedupeGo [] l

/-- Legacy additive scorer (`scoreResults` of `src/unnamed/part_002`):
base 0.1, token/enhanced/category hits, 0.4 verbatim bonus, −0.1 short
title, +0.05 image, +0.1 eBay bonus, clamp, 2-decimal rounding. -/
def scoreResults (results : List RawListing) (originalQuery : String)
    (eq : EnhancedQuery) : List LegacyScored :=
  let queryTerms := jsSplitWs (lowerStr originalQuery)
  let enhancedTerms := eq.search_terms.map lowerStr
  let categories := eq.categories.map lowerStr
  results.map (fun result =>
    let title := lowerStr result.title
    let description := lowerStr result.description
    let score : ℚ :=
      1 / 10
      + queryTerms.foldl (fun acc t =>
          acc + (if jsIncludes title t then 3 / 10 else 0)
              + (if jsIncludes description t then 1 / 10 else 0)) 0
      + enhancedTerms.foldl (fun acc t =>
          acc + (if jsIncludes title t then 1 / 5 else 0)
              + (if jsIncludes description t then 1 / 20 else 0)) 0
      + categories.foldl (fun acc c =>
          acc + (if jsIncludes title c || jsIncludes description c then 3 / 20 else 0)) 0
      + (if jsIncludes title (lowerStr originalQuery) then 2 / 5 else 0)
      + (if result.title.length < 20 then -(1 / 10) else 0)
      + (if result.image ≠ "" then 1 / 20 else 0)
      + (if result.source = "ebay" then 1 / 10 else 0)
    { result with score := round2 (max 0 (min 1 score)) })

/-- `price.replace(/[£$€,\s]/g, '')`. -/
def stripPriceChars (s : String) : String :=
  ⟨s.data.filter (fun c => !(c == '£' || c == '$' || c == '€' || c == ',' || c.isWhitespace))⟩

/-- The per-listing body of the legacy `convertCurrency`; here the
`!isNaN(numericPrice)` guard is effective because `parseFloat` returns
`NaN` (modelled as `none`) on an unparsable string. -/
def convertItemPrice (price targetCurrency : String) : String :=
  let currentCurrency :=
    if jsIncludes price "$" then "USD"
    else if jsIncludes price "€" then "EUR" else "GBP"
  match parseFloatQ (stripPriceChars price) with
  | some n =>
    if currentCurrency ≠ targetCurrency then
      match Core.rates (currentCurrency ++ "_TO_" ++ targetCurrency) with
      | some rate => Core.currencySymbol targetCurrency ++ toString (jsRound (n * rate))
      | none => price
    else price
  | none => price

def convertCurrency (results : List LegacyScored) (targetCurrency : String) :
    List LegacyScored :=
  if targetCurrency = "GBP" then results
  else results.map (fun r => { r with price := convertItemPrice r.price targetCurrency })

/-- Legacy `performSearch` with the enhancement result and the two source
capabilities (eBay, Gumtree) made explicit: term fan-out capped at 5,
per-call failures mapped to empty contributions, dedup, score, stable sort
descending, top 20, currency conversion. -/
def performSearch (searchTerm location currency : String) (eq : EnhancedQuery)
    (ebay gumtree : String → String → SourceOutcome) :
    Except String (List LegacyScored) :=
  let allSearchTerms := ([searchTerm] ++ eq.search_terms).take 5
  let allResults := allSearchTerms.flatMap (fun term =>
    sourceContribution (ebay term location) ++ sourceContribution (gumtree term location))
  if allResults.isEmpty then .ok []
  else
    let unique := deduplicateResults allResults
    let scored := scoreResults unique searchTerm eq
    let finalResults :=
      ((scored.filter (fun r => r.title ≠ "")).mergeSort
        (fun a b => decide (b.score ≤ a.score))).take 20
    .ok (convertCurrency finalResults currency)

end Legacy

/-! ## Derived definitions used in claim statements -/

namespace Core

/-- The first valid candidate of `l` carrying identity key `k` (what
first-seen-wins deduplication must keep). -/
def findFirstWithKey (l : List RawListing) (k : String × Option ℚ × String) :
    Option RawListing :=
  l.find? (fun r => validListing r && decide (uniqKey r.title r.price r.link = k))

end Core

/-- Modelled from the spec (for comparison with `Core.buildSearchTerms`):
"build the working term list = `[term] ++ enhancedQuery.search_terms`,
deduplicated, order-preserving, capped at 5". -/
def specWorkingTerms (searchTerm : String) (eq : EnhancedQuery) : List String :=
  (dedupFirst ([searchTerm] ++ eq.search_terms)).take 5

/-- The GBP→USD→GBP round trip induced by the code's rate table and
per-step `Math.round`: convert at `rates "GBP_TO_USD"`, round to a whole
unit, convert back at `rates "USD_TO_GBP"`, round again. -/
def roundTripGBP (v : ℚ) : ℤ :=
  jsRound (((Core.rates "USD_TO_GBP").getD 0)
    * (jsRound (((Core.rates "GBP_TO_USD").getD 0) * v) : ℚ))

/-- `roundTripGBP` on whole-pound inputs, expressed in natural-number
arithmetic (`⌊(127n + 50) / 100⌋` is half-up rounding of `1.27 n`). -/
def rtNat (n : ℕ) : ℕ :=
  (79 * ((127 * n + 50) / 100) + 50) / 100

/-! ## Fixtures used by witnesses and counterexamples -/

namespace Fix

/-- An enhanced query with duplicated/overlapping terms ("red amp"). -/
def eqRed : EnhancedQuery :=
  ⟨"red amp", ["red", "amp"], ["red"], [], ⟨false, false, false, true⟩⟩

/-- An enhanced query with no expansions. -/
def eqEmpty : EnhancedQuery :=
  ⟨"red amp", [], [], [], ⟨false, false, false, true⟩⟩

/-- Listing whose title contains "red amp" verbatim. -/
def la : NListing :=
  ⟨⟨"red amp gear bundle xx", "£100", "https://www.ebay.com/itm/1", "", "ebay", "red amp", none⟩,
    some 100⟩

/-- Identical to `la` in every field except the title, which has no
verbatim "red amp". -/
def lb : NListing :=
  ⟨⟨"amp red gear bundle xx", "£100", "https://www.ebay.com/itm/1", "", "ebay", "red amp", none⟩,
    some 100⟩

/-- Like `la` but with an empty description (keeps the term-match
accumulator below the clamp); `lb2` is identical except for its title. -/
def la2 : NListing :=
  ⟨⟨"red amp gear bundle xx", "£100", "https://www.ebay.com/itm/1", "", "ebay", "", none⟩,
    some 100⟩

/-- Identical to `la2` in every field except the title (no verbatim
"red amp"). -/
def lb2 : NListing :=
  ⟨⟨"amp red gear bundle xx", "£100", "https://www.ebay.com/itm/1", "", "ebay", "", none⟩,
    some 100⟩

/-- A listing with a `postedAt` timestamp, used against two clock values. -/
def lc : NListing :=
  ⟨⟨"abcdefghijklmnopqrstuvwxyz", "£100", "https://www.ebay.com/itm/3", "", "zzz-src", "",
      some 0⟩,
    some 100⟩

/-- A listing with no parsable price. -/
def lnp : NListing :=
  ⟨⟨"some listing title over twenty", "call me", "https://a.example/x", "", "ebay", "", none⟩,
    none⟩

/-- The spec's dedup scenario: the same listing scraped twice via
different term variants (same title, price, host). -/
def strymon1 : RawListing :=
  ⟨"Strymon OB.1 Pedal", "£280", "https://www.ebay.co.uk/itm/111", "", "ebay", "", none⟩

def strymon2 : RawListing :=
  ⟨"Strymon OB.1 Pedal", "£280", "https://www.ebay.co.uk/itm/222", "", "ebay", "", none⟩

/-- A candidate missing its price (legacy dedup must discard it). -/
def noPrice : RawListing :=
  ⟨"Has a title", "", "https://x.example/1", "", "gumtree", "", none⟩

/-- A complete candidate. -/
def complete : RawListing :=
  ⟨"Complete listing", "£5", "https://x.example/2", "", "gumtree", "", none⟩

/-- 41 scored listings with non-empty titles and distinct scores. -/
def bigList : List ScoredListing :=
  (List.range 41).map (fun i => ⟨⟨⟨"t", "£1", "https://e.example/l", "", "", "", none⟩, none⟩,
    (i : ℚ) / 100⟩)

/-- A collaborator response that parsed but carries an empty
`search_terms` array and a non-empty category list. -/
def parsedEmptyTerms : Openai.ParsedResponse :=
  ⟨some "strymon ob1", some [], some ["effects pedals"], none,
    some ⟨some true, none, some true, none⟩⟩

/-- A source capability whose every invocation rejects. -/
def throwingSource : String → String → SourceOutcome :=
  fun _ _ => SourceOutcome.throws

/-- A source capability that always fulfills with an empty array. -/
def emptySource : String → String → SourceOutcome :=
  fun _ _ => SourceOutcome.returns []

end Fix

/-! ## Shared helper lemmas -/

lemma clamp_unit_nonneg (q : ℚ) : 0 ≤ max 0 (min 1 q) :=
  le_max_left 0 _

lemma clamp_unit_le_one (q : ℚ) : max 0 (min 1 q) ≤ 1 :=
  max_le (by norm_num) (min_le_left 1 q)

lemma round2_nonneg {q : ℚ} (h : 0 ≤ q) : 0 ≤ round2 q := by
  unfold round2 jsRound
  apply div_nonneg _ (by norm_num)
  have : (0 : ℤ) ≤ ⌊q * 100 + 1 / 2⌋ := Int.le_floor.mpr (by push_cast; nlinarith)
  exact_mod_cast this

lemma round2_le_one {q : ℚ} (h : q ≤ 1) : round2 q ≤ 1 := by
  unfold round2 jsRound
  rw [div_le_one (by norm_num)]
  have : ⌊q * 100 + 1 / 2⌋ ≤ ⌊(201 / 2 : ℚ)⌋ := Int.floor_le_floor (by nlinarith)
  have h201 : ⌊(201 / 2 : ℚ)⌋ = 100 := by
    rw [Int.floor_eq_iff]
    norm_num
  rw [h201] at this
  exact_mod_cast this

/-- Half-up 2-decimal rounding turns a gap of at least `1/8` into a strict
increase. -/
lemma round2_lt_of_gap {x y : ℚ} (h : x + 1 / 8 ≤ y) : round2 x < round2 y := by
  unfold round2 jsRound
  rw [div_lt_div_iff_of_pos_right (by norm_num : (0 : ℚ) < 100)]
  have hmono : ⌊x * 100 + 1 / 2⌋ + 12 ≤ ⌊y * 100 + 1 / 2⌋ := by
    have h1 : x * 100 + 1 / 2 + (12 : ℤ) ≤ y * 100 + 1 / 2 := by push_cast; nlinarith
    calc ⌊x * 100 + 1 / 2⌋ + 12 = ⌊x * 100 + 1 / 2 + (12 : ℤ)⌋ := (Int.floor_add_int _ _).symm
      _ ≤ ⌊y * 100 + 1 / 2⌋ := Int.floor_le_floor h1
  have : ⌊x * 100 + 1 / 2⌋ < ⌊y * 100 + 1 / 2⌋ := by omega
  exact_mod_cast this

lemma SOURCE_WEIGHTS_bounds {s : String} {q : ℚ} (h : Core.SOURCE_WEIGHTS s = some q) :
    0 < q ∧ q ≤ 1 := by
  unfold Core.SOURCE_WEIGHTS at h
  split_ifs at h <;> simp only [Option.some.injEq] at h <;> subst h <;> norm_num

lemma sourceTrust_pos (x : NListing) : 0 < Core.sourceTrustComponent x := by
  unfold Core.sourceTrustComponent
  rcases hw : Core.SOURCE_WEIGHTS (if x.source ≠ "" then x.source else extractDomain x.link)
    with _ | q
  · norm_num [Option.getD_none]
  · simpa only [Option.getD_some] using (SOURCE_WEIGHTS_bounds hw).1

lemma sourceTrust_le_one (x : NListing) : Core.sourceTrustComponent x ≤ 1 := by
  unfold Core.sourceTrustComponent
  rcases hw : Core.SOURCE_WEIGHTS (if x.source ≠ "" then x.source else extractDomain x.link)
    with _ | q
  · norm_num [Option.getD_none]
  · simpa only [Option.getD_some] using (SOURCE_WEIGHTS_bounds hw).2

lemma recency_nonneg (now : ℚ) (ts : Option ℚ) : 0 ≤ Core.recencyScore now ts := by
  unfold Core.recencyScore
  rcases ts with _ | t
  · norm_num
  · dsimp only
    split_ifs <;> norm_num

lemma recency_le_one (now : ℚ) (ts : Option ℚ) : Core.recencyScore now ts ≤ 1 := by
  unfold Core.recencyScore
  rcases ts with _ | t
  · norm_num
  · dsimp only
    split_ifs <;> norm_num

lemma priceCloseness_nonneg (a m : Option ℚ) : 0 ≤ Core.priceClosenessScore a m := by
  unfold Core.priceClosenessScore
  split_ifs
  · norm_num
  · exact le_max_left 0 _

/-- The scorer is the map attaching to each listing the weighted-component
score `scoreValue`. -/
lemma scoreResults_eq_map (l : List NListing) (q : String) (eq : EnhancedQuery) (now : ℚ) :
    Core.scoreResults l q eq now
      = l.map (fun x => { x with score := Core.scoreValue q eq l now x }) := by
  simp only [Core.scoreResults, Core.scoreValue, Core.termMatchComponent, Core.termMatchAccum,
    Core.priceComponent, Core.recencyComponent, Core.sourceTrustComponent]
  refine List.map_congr_left fun x hx => ?_
  congr 2
  congr 1
  congr 1
  ring

/-! ## C1: the final score is the clamped, rounded weighted component sum -/

/-- C1.  For every candidate set entering scoring, each listing's final
score equals the sum of the four weighted components — term-match (weight
0.50), price-closeness to the median of all parsed numeric prices in the
candidate set (weight 0.15, neutral 0.5 when the listing has no parsable
price or no median exists), recency tiered by `postedAt` age (weight 0.10,
neutral 0.5 when missing), and source trust from the `SOURCE_WEIGHTS`
table (weight 0.05) — clamped to `[0, 1]` and rounded to 2 decimal
places. -/
theorem C1_final_score_weighted_sum (l : List NListing) (searchTerm : String)
    (eq : EnhancedQuery) (now : ℚ) :
    Core.scoreResults l searchTerm eq now
      = l.map (fun x => (⟨x,
          round2 (max 0 (min 1
            ((1 / 2) * Core.termMatchComponent searchTerm eq x
              + (3 / 20) * Core.priceComponent l x
              + (1 / 10) * Core.recencyComponent now x
              + (1 / 20) * Core.sourceTrustComponent x)))⟩ : ScoredListing))
    ∧ (∀ x : NListing, x.priceAmount = none → Core.priceComponent l x = 1 / 2)
    ∧ (Core.median (l.filterMap (·.priceAmount)) = none →
        ∀ x : NListing, Core.priceComponent l x = 1 / 2)
    ∧ (∀ x : NListing, x.postedAt = none → Core.recencyComponent now x = 1 / 2) := by
  refine ⟨scoreResults_eq_map l searchTerm eq now, ?_, ?_, ?_⟩
  · intro x hx
    simp [Core.priceComponent, Core.priceClosenessScore, Core.falsyQ, hx]
  · intro hmed x
    simp [Core.priceComponent, Core.priceClosenessScore, Core.falsyQ, hmed]
  · intro x hx
    simp [Core.recencyComponent, Core.recencyScore, hx]

/-- Witness for C1 at a concrete candidate set: the unparsable-price and
missing-timestamp listing gets both neutral components. -/
theorem C1_final_score_weighted_sum_witness :
    Core.priceComponent [Fix.lnp] Fix.lnp = 1 / 2
      ∧ Core.recencyComponent 0 Fix.lnp = 1 / 2 :=
  ⟨(C1_final_score_weighted_sum [Fix.lnp] "red amp" Fix.eqRed 0).2.1 Fix.lnp rfl,
    (C1_final_score_weighted_sum [Fix.lnp] "red amp" Fix.eqRed 0).2.2.2 Fix.lnp rfl⟩

/-! ## C2: deduplicator properties -/

/-- Induction workhorse for `Core.dedupeGo`: the output is an
order-preserving subselection of the input, every kept listing's key is
fresh w.r.t. `seen` and the kept listing is the first valid input
occurrence of its key, and kept keys are pairwise distinct. -/
lemma dedupeGo_spec (l : List RawListing) : ∀ seen : List (String × Option ℚ × String),
    List.Sublist ((Core.dedupeGo seen l).map (fun x => x.toRawListing)) l
  ∧ (∀ x ∈ Core.dedupeGo seen l, Core.keyOfN x ∉ seen
      ∧ Core.findFirstWithKey l (Core.keyOfN x) = some x.toRawListing)
  ∧ (Core.dedupeGo seen l).Pairwise (fun a b => Core.keyOfN a ≠ Core.keyOfN b) := by
  induction l with
  | nil =>
    intro seen
    exact ⟨by simp [Core.dedupeGo], by simp [Core.dedupeGo], by simp [Core.dedupeGo]⟩
  | cons r rest ih =>
    intro seen
    by_cases hv : Core.validListing r = true
    · by_cases hk : Core.uniqKey r.title r.price r.link ∈ seen
      · have hred : Core.dedupeGo seen (r :: rest) = Core.dedupeGo seen rest := by
          simp [Core.dedupeGo, hv, hk]
        obtain ⟨hsub, hmem, hpw⟩ := ih seen
        rw [hred]
        refine ⟨hsub.trans (List.sublist_cons_self r rest), fun x hx => ?_, hpw⟩
        obtain ⟨hns, hfind⟩ := hmem x hx
        refine ⟨hns, ?_⟩
        unfold Core.findFirstWithKey at hfind ⊢
        rw [List.find?_cons_of_neg, hfind]
        simp only [Bool.and_eq_true, decide_eq_true_eq, hv, true_and, not_true_eq_false]
        intro heq
        exact hns (heq ▸ hk)
      · have hred : Core.dedupeGo seen (r :: rest)
            = ⟨r, parsePriceNumber r.price⟩
                :: Core.dedupeGo (Core.uniqKey r.title r.price r.link :: seen) rest := by
          simp [Core.dedupeGo, hv, hk]
        obtain ⟨hsub, hmem, hpw⟩ := ih (Core.uniqKey r.title r.price r.link :: seen)
        rw [hred]
        refine ⟨?_, fun x hx => ?_, ?_⟩
        · simp only [List.map_cons]
          exact hsub.cons₂ r
        · rcases List.mem_cons.mp hx with rfl | hx'
          · refine ⟨hk, ?_⟩
            unfold Core.findFirstWithKey
            rw [List.find?_cons_of_pos]
            simp only [Bool.and_eq_true, decide_eq_true_eq, hv, true_and]
            rfl
          · obtain ⟨hns, hfind⟩ := hmem x hx'
            have hne : Core.keyOfN x ≠ Core.uniqKey r.title r.price r.link := by
              intro h
              exact hns (by rw [h]; exact List.mem_cons_self _ _)
            refine ⟨fun h => hns (List.mem_cons_of_mem _ h), ?_⟩
            unfold Core.findFirstWithKey at hfind ⊢
            rw [List.find?_cons_of_neg, hfind]
            simp only [Bool.and_eq_true, decide_eq_true_eq, hv, true_and, not_true_eq_false]
            intro heq
            exact hne heq.symm
        · refine List.pairwise_cons.mpr ⟨fun b hb => ?_, hpw⟩
          intro heq
          exact (hmem b hb).1 (by rw [← heq]; exact List.mem_cons_self _ _)
    · have hred : Core.dedupeGo seen (r :: rest) = Core.dedupeGo seen rest := by
        simp [Core.dedupeGo, hv]
      obtain ⟨hsub, hmem, hpw⟩ := ih seen
      rw [hred]
      refine ⟨hsub.trans (List.sublist_cons_self r rest), fun x hx => ?_, hpw⟩
      obtain ⟨hns, hfind⟩ := hmem x hx
      refine ⟨hns, ?_⟩
      unfold Core.findFirstWithKey at hfind ⊢
      rw [List.find?_cons_of_neg, hfind]
      simp [hv]

/-- C2.  The deduplicator is order-preserving with first-seen-wins, its
output is never longer than its input, no two output listings share an
identity key, and the identity key is the composite of the normalized
(lower-cased, whitespace-collapsed) title, the parsed numeric price (or
the `none` sentinel when unparseable), and the link's domain with the
`www.` prefix stripped and path/query discarded. -/
theorem C2_dedupe_properties (l : List RawListing) :
    (Core.dedupeResults l).length ≤ l.length
  ∧ List.Sublist ((Core.dedupeResults l).map (fun x => x.toRawListing)) l
  ∧ (Core.dedupeResults l).Pairwise (fun a b => Core.keyOfN a ≠ Core.keyOfN b)
  ∧ (∀ x ∈ Core.dedupeResults l,
      Core.findFirstWithKey l (Core.keyOfN x) = some x.toRawListing)
  ∧ (∀ t p lk, Core.uniqKey t p lk
      = (normalizeText t, parsePriceNumber p, extractDomain lk)) := by
  obtain ⟨hsub, hmem, hpw⟩ := dedupeGo_spec l []
  refine ⟨?_, hsub, hpw, fun x hx => (hmem x hx).2, fun t p lk => rfl⟩
  simpa using hsub.length_le

/-- Witness for C2 on the spec's duplicate-scrape scenario. -/
theorem C2_dedupe_properties_witness :
    (Core.dedupeResults [Fix.strymon1, Fix.strymon2]).length ≤ 2
  ∧ (Core.dedupeResults [Fix.strymon1, Fix.strymon2]).Pairwise
      (fun a b => Core.keyOfN a ≠ Core.keyOfN b) :=
  ⟨by simpa using (C2_dedupe_properties [Fix.strymon1, Fix.strymon2]).1,
    (C2_dedupe_properties [Fix.strymon1, Fix.strymon2]).2.2.1⟩

/-! ## C3: merge with fallback when the collaborator returns zero terms -/

/-- C3.  Whenever the enhancement collaborator succeeds but returns zero
usable search terms, the result handed onward is a merge of the
collaborator's output with the fallback expansion: the term sets are
unioned (insertion-ordered, capped at 8), the collaborator's non-empty
categories and forums take precedence over the fallback's (the fallback
only backfills empty ones), and the collaborator's flags and original are
kept — nothing of the collaborator's output is silently dropped. -/
theorem C3_zero_terms_merge (searchTerm : String) (parsed : Openai.ParsedResponse)
    (h : (Openai.normalizeParsed searchTerm parsed).search_terms = []) :
    (Openai.enhanceSuccess searchTerm parsed).search_terms
      = (dedupFirst ((Openai.getFallbackEnhancement searchTerm).search_terms
          ++ (Openai.normalizeParsed searchTerm parsed).search_terms)).take 8
  ∧ ((Openai.normalizeParsed searchTerm parsed).categories ≠ [] →
      (Openai.enhanceSuccess searchTerm parsed).categories
        = (Openai.normalizeParsed searchTerm parsed).categories)
  ∧ ((Openai.normalizeParsed searchTerm parsed).categories = [] →
      (Openai.enhanceSuccess searchTerm parsed).categories
        = (Openai.getFallbackEnhancement searchTerm).categories)
  ∧ ((Openai.normalizeParsed searchTerm parsed).forums ≠ [] →
      (Openai.enhanceSuccess searchTerm parsed).forums
        = (Openai.normalizeParsed searchTerm parsed).forums)
  ∧ ((Openai.normalizeParsed searchTerm parsed).forums = [] →
      (Openai.enhanceSuccess searchTerm parsed).forums
        = (Openai.getFallbackEnhancement searchTerm).forums)
  ∧ (Openai.enhanceSuccess searchTerm parsed).flags
      = (Openai.normalizeParsed searchTerm parsed).flags
  ∧ (Openai.enhanceSuccess searchTerm parsed).original
      = (Openai.normalizeParsed searchTerm parsed).original := by
  have hEmpty : (Openai.normalizeParsed searchTerm parsed).search_terms.isEmpty = true := by
    simp [h]
  refine ⟨?_, fun hc => ?_, fun hc => ?_, fun hf => ?_, fun hf => ?_, ?_, ?_⟩
  · simp only [Openai.enhanceSuccess, hEmpty, if_true]
  · simp only [Openai.enhanceSuccess, hEmpty, if_true]
    simp [List.isEmpty_iff, hc]
  · simp only [Openai.enhanceSuccess, hEmpty, if_true]
    simp [List.isEmpty_iff, hc]
  · simp only [Openai.enhanceSuccess, hEmpty, if_true]
    simp [List.isEmpty_iff, hf]
  · simp only [Openai.enhanceSuccess, hEmpty, if_true]
    simp [List.isEmpty_iff, hf]
  · simp only [Openai.enhanceSuccess, hEmpty, if_true]
  · simp only [Openai.enhanceSuccess, hEmpty, if_true]

/-- Witness for C3: a parsed response with an empty `search_terms` array
and a non-empty category list keeps its categories and flags. -/
theorem C3_zero_terms_merge_witness :
    (Openai.enhanceSuccess "strymon ob1" Fix.parsedEmptyTerms).categories
      = (Openai.normalizeParsed "strymon ob1" Fix.parsedEmptyTerms).categories
  ∧ (Openai.enhanceSuccess "strymon ob1" Fix.parsedEmptyTerms).flags
      = (Openai.normalizeParsed "strymon ob1" Fix.parsedEmptyTerms).flags :=
  ⟨(C3_zero_terms_merge "strymon ob1" Fix.parsedEmptyTerms (by decide)).2.1 (by decide),
    (C3_zero_terms_merge "strymon ob1" Fix.parsedEmptyTerms (by decide)).2.2.2.2.2.1⟩

/-! ## C4: ranking is a stable descending sort truncated to 40 -/

lemma scoreDesc_trans : ∀ a b c : ScoredListing,
    decide (b.score ≤ a.score) = true → decide (c.score ≤ b.score) = true →
    decide (c.score ≤ a.score) = true := by
  intro a b c h1 h2
  simp only [decide_eq_true_eq] at *
  exact le_trans h2 h1

lemma scoreDesc_total : ∀ a b : ScoredListing,
    (decide (b.score ≤ a.score) || decide (a.score ≤ b.score)) = true := by
  intro a b
  simpa [Bool.or_eq_true, decide_eq_true_eq] using le_total b.score a.score

/-- Merge sort on the descending-score comparator is stable: for every
score value, the listings carrying it keep their input order. -/
lemma mergeSort_score_filter (L : List ScoredListing) (s : ℚ) :
    (L.mergeSort (fun a b => decide (b.score ≤ a.score))).filter
        (fun x => decide (x.score = s))
      = L.filter (fun x => decide (x.score = s)) := by
  have hB : (L.filter (fun x => decide (x.score = s))).Pairwise
      (fun a b => decide (b.score ≤ a.score) = true) := by
    apply List.pairwise_of_forall_mem_list
    intro a ha b hb
    simp only [List.mem_filter, decide_eq_true_eq] at ha hb
    simp [ha.2, hb.2]
  have h1 := List.sublist_mergeSort scoreDesc_trans scoreDesc_total hB
    (List.filter_sublist L)
  have hff : ((L.filter (fun x => decide (x.score = s))).filter
      (fun x => decide (x.score = s)))
      = L.filter (fun x => decide (x.score = s)) := by
    rw [List.filter_filter]
    congr 1
    funext a
    rw [Bool.and_self]
  have h2 : List.Sublist (L.filter (fun x => decide (x.score = s)))
      ((L.mergeSort (fun a b => decide (b.score ≤ a.score))).filter
        (fun x => decide (x.score = s))) := by
    have h3 := h1.filter (fun x => decide (x.score = s))
    rwa [hff] at h3
  have hperm := (List.mergeSort_perm L (fun a b => decide (b.score ≤ a.score))).filter
    (fun x => decide (x.score = s))
  exact (h2.eq_of_length (hperm.length_eq.symm)).symm

/-- C4.  `rankResults` returns the scored listings sorted in descending
order by score (stably: within each score value, original order is
preserved) and truncated to a fixed maximum of 40; on inputs of more than
40 listings (all bearing the title required at this stage) the output has
exactly 40 entries. -/
theorem C4_rank_sorted_truncated (scored : List ScoredListing) :
    (Core.rankResults scored).Pairwise (fun a b => b.score ≤ a.score)
  ∧ (∀ s : ℚ,
      ((scored.filter (fun r => r.title ≠ "")).mergeSort
          (fun a b => decide (b.score ≤ a.score))).filter (fun x => decide (x.score = s))
        = (scored.filter (fun r => r.title ≠ "")).filter (fun x => decide (x.score = s)))
  ∧ (Core.rankResults scored).length
      = min (scored.filter (fun r => r.title ≠ "")).length 40
  ∧ ((∀ x ∈ scored, x.title ≠ "") → 40 < scored.length →
      (Core.rankResults scored).length = 40) := by
  have hall : ∀ t : List ScoredListing,
      (t.mergeSort (fun a b => decide (b.score ≤ a.score))).Pairwise
        (fun a b => b.score ≤ a.score) := by
    intro t
    have := List.sorted_mergeSort scoreDesc_trans scoreDesc_total t
    exact this.imp (fun h => of_decide_eq_true h)
  refine ⟨?_, fun s => mergeSort_score_filter _ s, ?_, ?_⟩
  · exact (hall _).sublist (List.take_sublist _ _)
  · unfold Core.rankResults
    rw [List.length_take, List.length_mergeSort, Nat.min_comm]
  · intro htitle hlen
    unfold Core.rankResults
    have hf : scored.filter (fun r => r.title ≠ "") = scored :=
      List.filter_eq_self.mpr (fun a ha => by simpa using htitle a ha)
    rw [List.length_take, List.length_mergeSort, hf]
    omega

/-- Witness for C4: a 41-listing input yields exactly 40 results. -/
theorem C4_rank_sorted_truncated_witness : (Core.rankResults Fix.bigList).length = 40 :=
  (C4_rank_sorted_truncated Fix.bigList).2.2.2 (by decide) (by decide)

/-! ## C5: total source failure yields an empty, non-error result -/

/-- C5.  If every source capability invocation throws or returns an empty
sequence, `performSearch` returns the empty sequence as a normal
successful outcome (`.ok []`), not an error: each per-source failure is
caught locally and mapped to an empty contribution, so no single source or
term failure aborts the overall search. -/
theorem C5_all_sources_fail (searchTerm location currency : String)
    (enhanced : EnhancedQuery) (sources : List (String → String → SourceOutcome)) (now : ℚ)
    (h : ∀ src ∈ sources, ∀ term loc,
      src term loc = SourceOutcome.throws ∨ src term loc = SourceOutcome.returns []) :
    Core.performSearch searchTerm location currency enhanced sources now
      = Except.ok [] := by
  by_cases hs : sources.isEmpty
  · simp [Core.performSearch, hs]
  · have hnil : (Core.buildSearchTerms searchTerm enhanced).flatMap (fun term =>
        sources.flatMap (fun src => sourceContribution (src term location))) = [] := by
      rw [List.flatMap_eq_nil_iff]
      intro term _
      rw [List.flatMap_eq_nil_iff]
      intro src hsrc
      rcases h src hsrc term location with h1 | h1 <;> simp [h1, sourceContribution]
    simp [Core.performSearch, hs, hnil]

/-- Witness for C5: one always-throwing source and one always-empty
source. -/
theorem C5_all_sources_fail_witness :
    Core.performSearch "strymon ob1" "UK" "GBP" Fix.eqRed
      [Fix.throwingSource, Fix.emptySource] 0 = Except.ok [] := by
  apply C5_all_sources_fail
  intro src hsrc term loc
  rcases List.mem_cons.mp hsrc with rfl | hsrc'
  · exact Or.inl rfl
  · rcases List.mem_cons.mp hsrc' with rfl | h'
    · exact Or.inr rfl
    · exact absurd h' (List.not_mem_nil _)

/-! ## C6: bounds hold, but determinism only at a fixed clock reading -/

/-- C6 counterexample.  The scorer is *not* deterministic on identical
inputs (including identical `postedAt` values): the recency component
reads the ambient clock, so the same candidate set scored at two
different `Date.now()` readings (here: epoch, and 100 days later, with
`postedAt` fixed at epoch) produces different scores (0.28 vs 0.20). -/
theorem C6_determinism_counterexample :
    Core.scoreResults [Fix.lc] "zzz" Fix.eqRed 0
      ≠ Core.scoreResults [Fix.lc] "zzz" Fix.eqRed 8640000000 := by
  have h1 : Core.scoreResults [Fix.lc] "zzz" Fix.eqRed 0 = [⟨Fix.lc, 7 / 25⟩] := by
    rw [scoreResults_eq_map]
    simp +decide [Core.scoreValue, Core.termMatchComponent, Core.termMatchAccum,
      Core.priceComponent, Core.priceClosenessScore, Core.falsyQ, Core.median,
      Core.recencyComponent, Core.recencyScore, Core.sourceTrustComponent,
      Core.SOURCE_WEIGHTS, Fix.eqRed, Fix.lc, splitOnSpace, normalizeText, splitCh,
      splitChGo, joinWords, jsIncludes, listContains, round2, jsRound]
    norm_num [Int.floor_eq_iff]
  have h2 : Core.scoreResults [Fix.lc] "zzz" Fix.eqRed 8640000000
      = [⟨Fix.lc, 1 / 5⟩] := by
    rw [scoreResults_eq_map]
    simp +decide [Core.scoreValue, Core.termMatchComponent, Core.termMatchAccum,
      Core.priceComponent, Core.priceClosenessScore, Core.falsyQ, Core.median,
      Core.recencyComponent, Core.recencyScore, Core.sourceTrustComponent,
      Core.SOURCE_WEIGHTS, Fix.eqRed, Fix.lc, splitOnSpace, normalizeText, splitCh,
      splitChGo, joinWords, jsIncludes, listContains, round2, jsRound]
    norm_num [Int.floor_eq_iff]
  rw [h1, h2]
  intro hEq
  simp only [List.cons.injEq, ScoredListing.mk.injEq, and_true, true_and] at hEq
  norm_num at hEq

/-- C6 (amended).  For every listing entering scoring, the computed score
lies in `[0, 1]` after rounding; and scoring is deterministic given
identical inputs *and an identical current-time reading* — the recency
component depends on the ambient clock, not only on `postedAt`. -/
theorem C6_amended_bounded_deterministic (l : List NListing) (q : String)
    (eq : EnhancedQuery) (now : ℚ) :
    (∀ x ∈ Core.scoreResults l q eq now, 0 ≤ x.score ∧ x.score ≤ 1)
  ∧ (∀ now' : ℚ, now = now' →
      Core.scoreResults l q eq now = Core.scoreResults l q eq now') := by
  constructor
  · intro x hx
    rw [scoreResults_eq_map] at hx
    obtain ⟨a, ha, rfl⟩ := List.mem_map.mp hx
    simp only [Core.scoreValue]
    exact ⟨round2_nonneg (clamp_unit_nonneg _), round2_le_one (clamp_unit_le_one _)⟩
  · rintro now' rfl
    rfl

/-- Witness for C6 (amended) at a one-listing candidate set. -/
theorem C6_amended_bounded_deterministic_witness :
    0 ≤ (Core.scoreResults [Fix.lc] "zzz" Fix.eqRed 0).headI.score
  ∧ (Core.scoreResults [Fix.lc] "zzz" Fix.eqRed 0).headI.score ≤ 1 := by
  have hne : Core.scoreResults [Fix.lc] "zzz" Fix.eqRed 0 ≠ [] := by
    rw [scoreResults_eq_map]
    simp
  have hmem : (Core.scoreResults [Fix.lc] "zzz" Fix.eqRed 0).headI
      ∈ Core.scoreResults [Fix.lc] "zzz" Fix.eqRed 0 := by
    rcases hl : Core.scoreResults [Fix.lc] "zzz" Fix.eqRed 0 with _ | ⟨a, t⟩
    · exact absurd hl hne
    · simp
  exact (C6_amended_bounded_deterministic [Fix.lc] "zzz" Fix.eqRed 0).1 _ hmem

/-! ## C7: the verbatim-phrase bonus only wins below the clamp -/

/-- C7 counterexample.  Two listings identical in every field (price,
link, image, source, description, timestamp, parsed price) except the
title — one containing the original query "red amp" verbatim, the other
not — receive the *same* final score (0.75 each): both term-match
accumulators (1.70 and 1.45) already exceed 1 and are clamped before
weighting, so the verbatim bonus is absorbed. -/
theorem C7_verbatim_counterexample :
    jsIncludes (normalizeText Fix.la.title) (normalizeText "red amp") = true
  ∧ jsIncludes (normalizeText Fix.lb.title) (normalizeText "red amp") = false
  ∧ Fix.la.price = Fix.lb.price ∧ Fix.la.link = Fix.lb.link
  ∧ Fix.la.image = Fix.lb.image ∧ Fix.la.source = Fix.lb.source
  ∧ Fix.la.description = Fix.lb.description ∧ Fix.la.postedAt = Fix.lb.postedAt
  ∧ Fix.la.priceAmount = Fix.lb.priceAmount
  ∧ Fix.la.title ≠ Fix.lb.title
  ∧ (Core.scoreResults [Fix.la, Fix.lb] "red amp" Fix.eqRed 0).map (fun x => x.score)
      = [3 / 4, 3 / 4] := by
  have hfm : List.filterMap (fun x : NListing => x.priceAmount) [Fix.la, Fix.lb]
      = [100, 100] := by decide
  have hsorted : (([100, 100] : List ℚ).mergeSort (fun x y => decide (x ≤ y)))
      = [100, 100] := List.mergeSort_of_sorted (by simp)
  have hmed : Core.median ([100, 100] : List ℚ) = some 100 := by
    simp [Core.median, hsorted]
  refine ⟨by decide, by decide, rfl, rfl, rfl, rfl, rfl, rfl, rfl, by decide, ?_⟩
  rw [scoreResults_eq_map]
  simp +decide [Core.scoreValue, Core.termMatchComponent, Core.termMatchAccum,
    Core.priceComponent, hfm, hmed, Core.priceClosenessScore, Core.falsyQ,
    Core.recencyComponent, Core.recencyScore, Core.sourceTrustComponent,
    Core.SOURCE_WEIGHTS, Fix.eqRed, Fix.la, Fix.lb, splitOnSpace, normalizeText, splitCh,
    splitChGo, joinWords, jsIncludes, listContains, round2, jsRound]
  norm_num [Int.floor_eq_iff]

/-- C7 (amended).  For a pair of listings whose scoring inputs are
identical except that one's term-match accumulator carries exactly the
0.25 verbatim-phrase bonus, the bonus-carrying listing scores strictly
higher — provided the shared accumulator lies in `[0, 0.75]` (so neither
accumulator is clamped) and the price-closeness component is at most 1 (as
it always is for a positive or absent median).  Outside those bounds
clamping can equalize the scores. -/
theorem C7_amended_verbatim_bonus (l : List NListing) (q : String) (eq : EnhancedQuery)
    (now : ℚ) (a b : NListing)
    (haccum : Core.termMatchAccum q eq a = Core.termMatchAccum q eq b + 1 / 4)
    (h0 : 0 ≤ Core.termMatchAccum q eq b)
    (h1 : Core.termMatchAccum q eq b ≤ 3 / 4)
    (hprice : a.priceAmount = b.priceAmount)
    (hposted : a.postedAt = b.postedAt)
    (hsrc : Core.sourceTrustComponent a = Core.sourceTrustComponent b)
    (hpc : Core.priceComponent l b ≤ 1) :
    Core.scoreValue q eq l now b < Core.scoreValue q eq l now a := by
  have hP0 : 0 ≤ Core.priceComponent l b := by
    unfold Core.priceComponent
    exact priceCloseness_nonneg _ _
  have hR0 : 0 ≤ Core.recencyComponent now b := by
    unfold Core.recencyComponent
    exact recency_nonneg _ _
  have hR1 : Core.recencyComponent now b ≤ 1 := by
    unfold Core.recencyComponent
    exact recency_le_one _ _
  have hS0 : 0 < Core.sourceTrustComponent b := sourceTrust_pos b
  have hS1 : Core.sourceTrustComponent b ≤ 1 := sourceTrust_le_one b
  have hpab : Core.priceComponent l a = Core.priceComponent l b := by
    unfold Core.priceComponent
    rw [hprice]
  have hrab : Core.recencyComponent now a = Core.recencyComponent now b := by
    unfold Core.recencyComponent
    rw [hposted]
  unfold Core.scoreValue Core.termMatchComponent
  rw [haccum, hpab, hrab, hsrc]
  rw [max_eq_right (by linarith : (0 : ℚ) ≤ Core.termMatchAccum q eq b + 1 / 4),
    min_eq_right (by linarith : Core.termMatchAccum q eq b + 1 / 4 ≤ 1),
    max_eq_right h0, min_eq_right (by linarith : Core.termMatchAccum q eq b ≤ 1)]
  have hXb1 : (1 / 2) * Core.termMatchAccum q eq b + (3 / 20) * Core.priceComponent l b
      + (1 / 10) * Core.recencyComponent now b
      + (1 / 20) * Core.sourceTrustComponent b ≤ 1 := by nlinarith
  have hXb0 : (0 : ℚ) ≤ (1 / 2) * Core.termMatchAccum q eq b
      + (3 / 20) * Core.priceComponent l b + (1 / 10) * Core.recencyComponent now b
      + (1 / 20) * Core.sourceTrustComponent b := by nlinarith
  have hXa1 : (1 / 2) * (Core.termMatchAccum q eq b + 1 / 4)
      + (3 / 20) * Core.priceComponent l b + (1 / 10) * Core.recencyComponent now b
      + (1 / 20) * Core.sourceTrustComponent b ≤ 1 := by nlinarith
  have hXa0 : (0 : ℚ) ≤ (1 / 2) * (Core.termMatchAccum q eq b + 1 / 4)
      + (3 / 20) * Core.priceComponent l b + (1 / 10) * Core.recencyComponent now b
      + (1 / 20) * Core.sourceTrustComponent b := by nlinarith
  rw [min_eq_right hXb1, max_eq_right hXb0, min_eq_right hXa1, max_eq_right hXa0]
  apply round2_lt_of_gap
  linarith

/-- Witness for C7 (amended) on a concrete unclamped pair. -/
theorem C7_amended_verbatim_bonus_witness :
    Core.scoreValue "red amp" Fix.eqEmpty [Fix.la2, Fix.lb2] 0 Fix.lb2
      < Core.scoreValue "red amp" Fix.eqEmpty [Fix.la2, Fix.lb2] 0 Fix.la2 := by
  have ha : Core.termMatchAccum "red amp" Fix.eqEmpty Fix.la2 = 17 / 20 := by
    simp +decide [Core.termMatchAccum, Fix.eqEmpty, Fix.la2, splitOnSpace, normalizeText,
      splitCh, splitChGo, joinWords, jsIncludes, listContains]
    norm_num
  have hb : Core.termMatchAccum "red amp" Fix.eqEmpty Fix.lb2 = 3 / 5 := by
    simp +decide [Core.termMatchAccum, Fix.eqEmpty, Fix.lb2, splitOnSpace, normalizeText,
      splitCh, splitChGo, joinWords, jsIncludes, listContains]
    norm_num
  have hfm : List.filterMap (fun x : NListing => x.priceAmount) [Fix.la2, Fix.lb2]
      = [100, 100] := by decide
  have hsorted : (([100, 100] : List ℚ).mergeSort (fun x y => decide (x ≤ y)))
      = [100, 100] := List.mergeSort_of_sorted (by simp)
  have hpc : Core.priceComponent [Fix.la2, Fix.lb2] Fix.lb2 ≤ 1 := by
    unfold Core.priceComponent
    rw [hfm]
    simp +decide [Core.median, hsorted, Core.priceClosenessScore, Core.falsyQ, Fix.lb2]
  exact C7_amended_verbatim_bonus [Fix.la2, Fix.lb2] "red amp" Fix.eqEmpty 0 Fix.la2 Fix.lb2
    (by rw [ha, hb]; norm_num) (by rw [hb]; norm_num) (by rw [hb]; norm_num) rfl rfl rfl hpc

/-! ## C8: the working term list is not deduplicated -/

/-- C8 counterexample.  The working term list is *not* deduplicated: with
original term "x" and enhanced terms `["x"]` the fan-out list is
`["x", "x"]`, not the claimed deduplicated `["x"]`. -/
theorem C8_no_dedup_counterexample :
    Core.buildSearchTerms "x" ⟨"x", ["x"], [], [], ⟨false, false, false, true⟩⟩ = ["x", "x"]
  ∧ specWorkingTerms "x" ⟨"x", ["x"], [], [], ⟨false, false, false, true⟩⟩ = ["x"]
  ∧ Core.buildSearchTerms "x" ⟨"x", ["x"], [], [], ⟨false, false, false, true⟩⟩
      ≠ specWorkingTerms "x" ⟨"x", ["x"], [], [], ⟨false, false, false, true⟩⟩
  ∧ ¬ (Core.buildSearchTerms "x" ⟨"x", ["x"], [], [], ⟨false, false, false, true⟩⟩).Nodup :=
  ⟨by decide, by decide, by decide, by decide⟩

/-- C8 (amended).  The working term list equals the original term
prepended to the enhanced query's `search_terms`, each entry trimmed,
empty entries dropped, capped at 5 — with *no* deduplication (duplicates
may remain); the original term (when non-blank) is always first. -/
theorem C8_amended_terms (searchTerm : String) (eq : EnhancedQuery) :
    Core.buildSearchTerms searchTerm eq
      = ((([searchTerm] ++ eq.search_terms).map trimStr).filter (fun t => t ≠ "")).take 5
  ∧ (Core.buildSearchTerms searchTerm eq).length ≤ 5
  ∧ (trimStr searchTerm ≠ "" →
      (Core.buildSearchTerms searchTerm eq).head? = some (trimStr searchTerm)) := by
  refine ⟨rfl, ?_, ?_⟩
  · unfold Core.buildSearchTerms
    exact List.length_take_le 5 _
  · intro h
    unfold Core.buildSearchTerms
    have hmap : (([searchTerm] ++ eq.search_terms).map trimStr)
        = trimStr searchTerm :: (eq.search_terms.map trimStr) := by simp
    rw [hmap, List.filter_cons_of_pos (by simpa using h), List.take_succ_cons,
      List.head?_cons]

/-- Witness for C8 (amended). -/
theorem C8_amended_terms_witness :
    (Core.buildSearchTerms "strymon ob1" Fix.eqRed).head? = some (trimStr "strymon ob1") :=
  (C8_amended_terms "strymon ob1" Fix.eqRed).2.2 (by decide)

/-! ## C9: the currency round trip only stays within ±1 for small values -/

lemma jsRound_127 (n : ℕ) :
    jsRound ((127 : ℚ) / 100 * (n : ℚ)) = (((127 * n + 50) / 100 : ℕ) : ℤ) := by
  unfold jsRound
  have e : (127 : ℚ) / 100 * (n : ℚ) + 1 / 2
      = (((127 * n + 50 : ℕ) : ℤ) : ℚ) / ((100 : ℕ) : ℚ) := by
    push_cast
    ring
  rw [e, Rat.floor_intCast_div_natCast]
  norm_cast

lemma jsRound_79 (n : ℕ) :
    jsRound ((79 : ℚ) / 100 * (n : ℚ)) = (((79 * n + 50) / 100 : ℕ) : ℤ) := by
  unfold jsRound
  have e : (79 : ℚ) / 100 * (n : ℚ) + 1 / 2
      = (((79 * n + 50 : ℕ) : ℤ) : ℚ) / ((100 : ℕ) : ℚ) := by
    push_cast
    ring
  rw [e, Rat.floor_intCast_div_natCast]
  norm_cast

/-- On whole-pound inputs the rate-table round trip is the natural-number
computation `rtNat`. -/
lemma roundTrip_eq_rtNat (n : ℕ) : roundTripGBP (n : ℚ) = (rtNat n : ℤ) := by
  unfold roundTripGBP rtNat
  have hr1 : (Core.rates "GBP_TO_USD").getD 0 = (127 : ℚ) / 100 := by
    simp +decide [Core.rates]
  have hr2 : (Core.rates "USD_TO_GBP").getD 0 = (79 : ℚ) / 100 := by
    simp +decide [Core.rates]
  rw [hr1, hr2, jsRound_127 n, Int.cast_natCast, jsRound_79 ((127 * n + 50) / 100)]

set_option maxRecDepth 4000 in
/-- Exhaustive check: up to £349 the round trip keeps within one pound. -/
lemma rtNat_close : ∀ n : ℕ, n < 350 → (rtNat n ≤ n + 1 ∧ n ≤ rtNat n + 1) := by decide

/-- C9 counterexample.  A £350 listing converts to $445
(`round(350 · 1.27) = 445`) and back to £352 (`round(445 · 0.79) = 352`),
which is 2 away from the original — outside the claimed ±1 tolerance.
(The rates 1.27 and 0.79 compose to 1.0033, so the drift grows with the
amount; £1000 comes back as £1003.) -/
theorem C9_roundtrip_counterexample :
    Core.convertItemPrice "£350" "USD" = "$445"
  ∧ Core.convertItemPrice "$445" "GBP" = "£352"
  ∧ parsePriceNumber "£350" = some 350 ∧ parsePriceNumber "£352" = some 352
  ∧ ¬ (|(352 : ℚ) - 350| ≤ 1) := by
  have hp1 : parsePriceNumber "£350" = some 350 := by decide
  have hp2 : parsePriceNumber "$445" = some 445 := by decide
  have hj1 : jsRound ((350 : ℚ) * (127 / 100)) = 445 := by
    norm_num [jsRound, Int.floor_eq_iff]
  have hj2 : jsRound ((445 : ℚ) * (79 / 100)) = 352 := by
    norm_num [jsRound, Int.floor_eq_iff]
  refine ⟨?_, ?_, hp1, by decide, by norm_num⟩
  · simp +decide [Core.convertItemPrice, hp1, Core.rates, Core.currencySymbol, jsIncludes,
      listContains, hj1]
  · simp +decide [Core.convertItemPrice, hp2, Core.rates, Core.currencySymbol, jsIncludes,
      listContains, hj2]

/-- C9 (amended).  For whole-pound GBP amounts up to £349, converting
GBP→USD and back USD→GBP with the fixed rate table, rounding to the
nearest whole unit at each step, stays within ±1 of the original; beyond
that the 1.27 × 0.79 = 1.0033 asymmetry drifts outside the tolerance. -/
theorem C9_amended_roundtrip (n : ℕ) (h : n ≤ 349) :
    |(roundTripGBP (n : ℚ) : ℚ) - (n : ℚ)| ≤ 1 := by
  have hb := rtNat_close n (by omega)
  have h1 : ((rtNat n : ℚ)) ≤ (n : ℚ) + 1 := by exact_mod_cast hb.1
  have h2 : ((n : ℚ)) ≤ (rtNat n : ℚ) + 1 := by exact_mod_cast hb.2
  rw [roundTrip_eq_rtNat, abs_le]
  push_cast
  constructor <;> linarith

/-- Witness for C9 (amended) at £123. -/
theorem C9_amended_roundtrip_witness :
    |(roundTripGBP ((123 : ℕ) : ℚ) : ℚ) - ((123 : ℕ) : ℚ)| ≤ 1 :=
  C9_amended_roundtrip 123 (by norm_num)

/-! ## C10: every listing surviving the legacy pipeline has its fields -/

lemma string_append_ne_empty_left {a : String} (b : String) (h : a ≠ "") :
    a ++ b ≠ "" := by
  intro he
  apply h
  have hd := congrArg String.data he
  rw [String.data_append] at hd
  rcases List.append_eq_nil.mp hd with ⟨ha, _⟩
  cases a
  simp_all

lemma currencySymbol_ne_empty (t : String) : Core.currencySymbol t ≠ "" := by
  unfold Core.currencySymbol
  split_ifs <;> decide

/-- Legacy dedup only keeps candidates with all three essential fields. -/
lemma legacyDedupeGo_valid (l : List RawListing) : ∀ seen, ∀ r ∈ Legacy.dedupeGo seen l,
    r.title ≠ "" ∧ r.price ≠ "" ∧ r.link ≠ "" := by
  induction l with
  | nil =>
    intro seen r hr
    simp [Legacy.dedupeGo] at hr
  | cons a rest ih =>
    intro seen r hr
    by_cases hv : a.title = "" ∨ a.price = "" ∨ a.link = ""
    · rw [show Legacy.dedupeGo seen (a :: rest) = Legacy.dedupeGo seen rest from by
        simp [Legacy.dedupeGo, hv]] at hr
      exact ih seen r hr
    · by_cases hk : (trimStr (lowerStr a.title) ++ "-" ++ trimStr (lowerStr a.price)) ∈ seen
      · rw [show Legacy.dedupeGo seen (a :: rest) = Legacy.dedupeGo seen rest from by
          simp [Legacy.dedupeGo, hv, hk]] at hr
        exact ih seen r hr
      · rw [show Legacy.dedupeGo seen (a :: rest)
            = a :: Legacy.dedupeGo
                ((trimStr (lowerStr a.title) ++ "-" ++ trimStr (lowerStr a.price)) :: seen)
                rest from by simp [Legacy.dedupeGo, hv, hk]] at hr
        rcases List.mem_cons.mp hr with rfl | hr'
        · push_neg at hv
          exact hv
        · exact ih _ r hr'

/-- The legacy scorer only decorates: title, price and link are copied. -/
lemma legacyScore_fields (l : List RawListing) (q : String) (eq : EnhancedQuery) :
    ∀ x ∈ Legacy.scoreResults l q eq,
      ∃ r ∈ l, x.title = r.title ∧ x.price = r.price ∧ x.link = r.link := by
  intro x hx
  unfold Legacy.scoreResults at hx
  obtain ⟨r, hr, rfl⟩ := List.mem_map.mp hx
  exact ⟨r, hr, rfl, rfl, rfl⟩

/-- The legacy converter rewrites a price either to itself or to a
symbol-prefixed amount; it never empties a non-empty price. -/
lemma legacyConvertItem_ne_empty (p t : String) (hp : p ≠ "") :
    Legacy.convertItemPrice p t ≠ "" := by
  unfold Legacy.convertItemPrice
  cases hpf : parseFloatQ (Legacy.stripPriceChars p) with
  | none => simpa [hpf] using hp
  | some n =>
    simp only [hpf]
    repeat' split
    all_goals first
      | exact hp
      | exact string_append_ne_empty_left _ (currencySymbol_ne_empty t)

/-- Field tracking through `Legacy.convertCurrency`. -/
lemma legacyConvert_fields (results : List LegacyScored) (t : String) :
    ∀ x ∈ Legacy.convertCurrency results t,
      ∃ r ∈ results, x.title = r.title ∧ x.link = r.link ∧
        (r.price ≠ "" → x.price ≠ "") := by
  intro x hx
  unfold Legacy.convertCurrency at hx
  by_cases ht : t = "GBP"
  · rw [if_pos ht] at hx
    exact ⟨x, hx, rfl, rfl, fun h => h⟩
  · rw [if_neg ht] at hx
    obtain ⟨r, hr, rfl⟩ := List.mem_map.mp hx
    exact ⟨r, hr, rfl, rfl, fun h => legacyConvertItem_ne_empty r.price t h⟩

/-- C10.  Every listing returned by the legacy `performSearch` has a
non-empty title, price string, and link: deduplication discards any
candidate missing one of the three fields, and scoring, sorting,
truncation and currency conversion never remove or empty them (conversion
only rewrites the price, leaving it non-empty). -/
theorem C10_pipeline_nonempty_fields (searchTerm location currency : String)
    (eq : EnhancedQuery) (ebay gumtree : String → String → SourceOutcome)
    (out : List LegacyScored)
    (hout : Legacy.performSearch searchTerm location currency eq ebay gumtree
      = Except.ok out) :
    (∀ x ∈ out, x.title ≠ "" ∧ x.price ≠ "" ∧ x.link ≠ "")
  ∧ (∀ (l : List RawListing), ∀ r ∈ Legacy.deduplicateResults l,
      r.title ≠ "" ∧ r.price ≠ "" ∧ r.link ≠ "")
  ∧ (∀ (l : List RawListing) (r : RawListing), r ∈ l →
      (r.title = "" ∨ r.price = "" ∨ r.link = "") →
      r ∉ Legacy.deduplicateResults l) := by
  refine ⟨?_, fun l r hr => legacyDedupeGo_valid l [] r hr, fun l r _ hbad hmem => ?_⟩
  · intro x hx
    simp only [Legacy.performSearch] at hout
    split at hout
    · obtain rfl : ([] : List LegacyScored) = out := by
        simpa using hout
      simp at hx
    · simp only [Except.ok.injEq] at hout
      subst hout
      obtain ⟨y, hy, hty, hly, hpy⟩ := legacyConvert_fields _ _ x hx
      have hy2 := List.mem_of_mem_take hy
      rw [List.mem_mergeSort] at hy2
      have hy3 := List.mem_filter.mp hy2
      obtain ⟨r, hr, hyt, hyp, hyl⟩ := legacyScore_fields _ _ _ y hy3.1
      have hval := legacyDedupeGo_valid _ [] r hr
      refine ⟨?_, ?_, ?_⟩
      · rw [hty, hyt]
        exact hval.1
      · exact hpy (by rw [hyp]; exact hval.2.1)
      · rw [hly, hyl]
        exact hval.2.2
  · have hval := legacyDedupeGo_valid l [] r hmem
    rcases hbad with h | h | h
    · exact hval.1 h
    · exact hval.2.1 h
    · exact hval.2.2 h

/-- Witness for C10: a candidate with an empty price is discarded by the
legacy deduplicator. -/
theorem C10_pipeline_nonempty_fields_witness :
    Fix.noPrice ∉ Legacy.deduplicateResults [Fix.noPrice, Fix.complete] :=
  (C10_pipeline_nonempty_fields "x" "UK" "GBP" Fix.eqEmpty Fix.throwingSource
      Fix.throwingSource [] rfl).2.2
    [Fix.noPrice, Fix.complete] Fix.noPrice (List.mem_cons_self _ _)
    (Or.inr (Or.inl rfl))
